import Mathlib

/-!
# Verification of the `rust_scanner` directory walker

Shallow embedding of `src/tools/rust_scanner/src/main.rs`: a recursive
filesystem enumerator with a depth bound, a symlink policy and
directory-exclusion patterns, streaming one record per regular file to an
output sink.

Strings are modelled as `List Char` (`Str`), so that every string
operation is structural and kernel-evaluable.  Rust's `str::trim` removes
Unicode whitespace; we model the ASCII whitespace characters, which is the
only difference and is irrelevant to every claim below.
-/

namespace RustScanner

/-- Strings are modelled as lists of characters. -/
abbrev Str := List Char

/-- ASCII whitespace, modelling the characters `char::is_whitespace`
recognises in the inputs that matter here. -/
def isWs (c : Char) : Bool :=
  c = ' ' || c = '\t' || c = '\n' || c = '\r'

/-- Rust `str::trim`: drop whitespace from both ends. -/
def rustTrim (s : Str) : Str :=
  ((s.dropWhile isWs).reverse.dropWhile isWs).reverse

/-- Rust `str::ends_with(suffix)`. -/
def str_ends_with (s suffix : Str) : Bool :=
  List.isPrefixOf suffix.reverse s.reverse

/-- Rust `String::truncate(s.len() - n)` for an `n`-character ASCII tail:
drop the last `n` characters. -/
def drop_right (s : Str) (n : Nat) : Str :=
  (s.reverse.drop n).reverse

/-- Source function `normalize_pattern_token` of `main.rs` (lines 53-62):
`pat.trim().replace('\\', "/")`, then strip one trailing `"/**"`, then the
`while s.ends_with('/') { s.pop(); }` loop, which removes exactly the
maximal run of trailing `'/'` characters. -/
def normalize_pattern_token (pat : Str) : Str :=
  let s := (rustTrim pat).map (fun c => if c = '\\' then '/' else c)
  let s := if str_ends_with s ['/', '*', '*'] then drop_right s 3 else s
  (s.reverse.dropWhile (fun c => c = '/')).reverse

/-- The token `t` followed by `"/"` — the prefix the matcher tests with
`rel_posix.starts_with(token.clone() + "/")`. -/
def tokenSlash (t : Str) : Str := t ++ ['/']

/-- A token containing one of the glob metacharacters the matcher refuses
to expand (`token.contains('*') || token.contains('?') || token.contains('[')`). -/
def tokenHasWildcard (t : Str) : Bool :=
  t.contains '*' || t.contains '?' || t.contains '['

/-- Source function `should_exclude_dir` of `main.rs` (lines 64-77).  The source's `for` loop
with an early `return true` is the `List.any` of its body. -/
def should_exclude_dir (dir_name rel_posix : Str) (patterns : List Str) : Bool :=
  patterns.any (fun pat =>
    let token := normalize_pattern_token pat
    if token.isEmpty then false
    else if !(tokenHasWildcard token) then
      dir_name = token || rel_posix = token
        || List.isPrefixOf (tokenSlash token) rel_posix
    else false)

/-! ## The filesystem model

`scan_dir` observes the filesystem only through `fs::read_dir`,
`DirEntry::file_type`, `DirEntry::file_name` and `fs::metadata`, so a
directory tree is modelled by what those observations return.  A failing
`read_dir` is a `none` listing; a failing `entry_res` is `EItem.err`; a
failing `file_type()` is a `none` ftype; a failing `fs::metadata` is a
`none` metadata field. -/

/-- Result of `entry.file_type()` (line 102).  Rust's
`DirEntry::file_type` does not traverse symlinks, and `fs::FileType`
answers exactly one of `is_dir`, `is_file`, `is_symlink` (or none of
them, for devices, sockets, etc.), so the tag is one of four mutually
exclusive cases.  In particular a symlink to a directory answers
`is_dir() == false`: the symlink test at line 118 is unreachable inside
the `is_dir` branch (see the theorem for claim C3). -/
inductive FType where
  | dir : FType
  | file : FType
  | symlink : FType
  | other : FType
deriving DecidableEq, Repr

/-- Rust `FileType::is_dir`. -/
def FType.isDir : FType → Bool
  | .dir => true
  | .file => false
  | .symlink => false
  | .other => false

/-- Rust `FileType::is_file`. -/
def FType.isFile : FType → Bool
  | .dir => false
  | .file => true
  | .symlink => false
  | .other => false

/-- Rust `FileType::is_symlink`. -/
def FType.isSymlink : FType → Bool
  | .dir => false
  | .file => false
  | .symlink => true
  | .other => false

/-- The type tag of a directory entry. -/
def ftDir : FType := .dir
/-- The type tag of a regular-file entry. -/
def ftFile : FType := .file

/-- What `fs::metadata` returns for a file: `modified()` as whole seconds
since the epoch when available (`u64`, hence a `Nat`), and `len()`. -/
structure MetaData where
  modified : Option Nat
  size : Nat
deriving DecidableEq, Repr

/-- The `as i64` cast of a `u64` second count. -/
def toI64 (n : Nat) : Int :=
  if n % 2 ^ 64 < 2 ^ 63 then ((n % 2 ^ 64 : Nat) : Int)
  else ((n % 2 ^ 64 : Nat) : Int) - 2 ^ 64

/-- The source's modified-time expression:
`modified().ok().and_then(duration_since(UNIX_EPOCH).ok).map(as_secs as i64).unwrap_or(0)`. -/
def mtimeOf (md : MetaData) : Int :=
  match md.modified with
  | some secs => toI64 secs
  | none => 0

/-- One item yielded by iterating `fs::read_dir`: either a failed
`entry_res` (skipped by the walker) or an entry carrying its name, the
result of `file_type()`, the listing `read_dir` would produce at its path
(used when it is a directory; `none` = listing failure) and the result of
`fs::metadata` at its path (used when it is a file). -/
inductive EItem where
  | err : EItem
  | node (name : Str) (ftype : Option FType)
      (listing : Option (List EItem)) (md : Option MetaData) : EItem

/-- One output line of the scanner, identified by the emitted path's
components relative to the scan root (the root prefix of `path.display()`
is fixed for a whole scan), the modified time and the size. -/
structure Record where
  path : List Str
  mtime : Int
  size : Nat
deriving DecidableEq, Repr

/-- The state of the output sink: how many `writeln!` calls have been
attempted, and the records the successful ones appended. -/
structure SinkState where
  writes : Nat
  out : List Record
deriving DecidableEq, Repr

/-- A sink behaviour: whether the `k`-th write attempt succeeds.  The
all-succeeding sink is `fun _ => true`. -/
abbrev Sink := Nat → Bool

/-- The scanner's configuration (`Opts` in the source, minus `root`,
which the embedding carries implicitly by tracking root-relative paths). -/
structure Opts where
  max_depth : Nat
  follow_symlinks : Bool
  exclude_dirs : List Str
deriving Repr

/-- Result of `rel.to_string_lossy().replace('\\', "/")` for the path with the given
components relative to the root: join with `/` and replace backslashes. -/
def relPosix (comps : List Str) : Str :=
  (List.intercalate ['/'] comps).map (fun c => if c = '\\' then '/' else c)

/-- One `writeln!` attempt: on success the record is appended, on failure
nothing is; either way the attempt is counted. -/
def writeRecord (sink : Sink) (r : Record) (s : SinkState) : Bool × SinkState :=
  if sink s.writes then (true, ⟨s.writes + 1, s.out ++ [r]⟩)
  else (false, ⟨s.writes + 1, s.out⟩)

/-- The `for entry_res in entries` loop of `main.rs::scan_dir`
(lines 95-140), processing the listing of the directory whose
root-relative components are `rel`, at recursion depth `depth`.  Returns
the `io::Result<()>` as a `Bool` (`true` = `Ok`) together with the sink
state.  `path.strip_prefix(root)` cannot fail in the model because the
walker only ever descends from the root, so its `Err` arm has no
counterpart.  The recursive `scan_dir` call of line 121 appears here as
the inner depth-guard/listing match; `let _ =` discards its `Bool`. -/
def scan_entries (opts : Opts) (sink : Sink) :
    List EItem → List Str → Nat → SinkState → Bool × SinkState
  | [], _, _, s => (true, s)
  | .err :: rest, rel, depth, s => scan_entries opts sink rest rel depth s
  | .node name ftype listing md :: rest, rel, depth, s =>
    match ftype with
    | none => scan_entries opts sink rest rel depth s
    | some ft =>
      if ft.isDir then
        if should_exclude_dir name (relPosix (rel ++ [name])) opts.exclude_dirs then
          scan_entries opts sink rest rel depth s
        else if !opts.follow_symlinks && ft.isSymlink then
          scan_entries opts sink rest rel depth s
        else
          let rec_result :=
            if depth + 1 > opts.max_depth then (true, s)
            else
              match listing with
              | none => (true, s)
              | some items => scan_entries opts sink items (rel ++ [name]) (depth + 1) s
          scan_entries opts sink rest rel depth rec_result.2
      else if ft.isFile then
        match md with
        | none => scan_entries opts sink rest rel depth s
        | some m =>
          let w := writeRecord sink ⟨rel ++ [name], mtimeOf m, m.size⟩ s
          if w.1 then scan_entries opts sink rest rel depth w.2
          else (false, w.2)
      else
        scan_entries opts sink rest rel depth s
termination_by l => sizeOf l

/-- Source function `scan_dir` of `main.rs` (lines 79-142) on the directory with listing
`listing` (a `none` listing is a failing `fs::read_dir`), root-relative
components `rel`, at depth `depth`. -/
def scan_dir (opts : Opts) (sink : Sink) (listing : Option (List EItem))
    (rel : List Str) (depth : Nat) (s : SinkState) : Bool × SinkState :=
  if depth > opts.max_depth then (true, s)
  else
    match listing with
    | none => (true, s)
    | some items => scan_entries opts sink items rel depth s

/-- Entry point: `main` invokes `scan_dir(&opts.root, &opts.root, 0, &opts, &mut out)`
on a fresh sink; it exits with code 1 exactly when this returns `false`. -/
def run_scan (opts : Opts) (sink : Sink) (root_listing : Option (List EItem)) :
    Bool × SinkState :=
  scan_dir opts sink root_listing [] 0 ⟨0, []⟩

/-- The always-succeeding sink. -/
def okSink : Sink := fun _ => true

/-! ## The ideal output stream

`emits` is the list of records the walker writes when every sink write
succeeds; it mirrors `scan_entries` case for case, with the sink state
dropped.  Every safety statement about the real walker is routed through
it via `scan_entries_out_sublist` below (with a failing sink the walker
writes a sublist of this stream), and `scan_entries_okSink` shows it is
exactly the output when no write fails. -/

/-- The records the loop of `scan_dir` emits from a listing, assuming
every write succeeds. -/
def emits (opts : Opts) : List EItem → List Str → Nat → List Record
  | [], _, _ => []
  | .err :: rest, rel, depth => emits opts rest rel depth
  | .node name ftype listing md :: rest, rel, depth =>
    match ftype with
    | none => emits opts rest rel depth
    | some ft =>
      if ft.isDir then
        if should_exclude_dir name (relPosix (rel ++ [name])) opts.exclude_dirs then
          emits opts rest rel depth
        else if !opts.follow_symlinks && ft.isSymlink then
          emits opts rest rel depth
        else
          (if depth + 1 > opts.max_depth then []
           else
             match listing with
             | none => []
             | some items => emits opts items (rel ++ [name]) (depth + 1))
            ++ emits opts rest rel depth
      else if ft.isFile then
        match md with
        | none => emits opts rest rel depth
        | some m => ⟨rel ++ [name], mtimeOf m, m.size⟩ :: emits opts rest rel depth
      else emits opts rest rel depth
termination_by l => sizeOf l

/-- The records `scan_dir` emits from a directory, assuming every write
succeeds. -/
def emitsDir (opts : Opts) (listing : Option (List EItem))
    (rel : List Str) (depth : Nat) : List Record :=
  if depth > opts.max_depth then []
  else
    match listing with
    | none => []
    | some items => emits opts items rel depth

/-! ## Reachability

`EmitChain opts l rel depth p md` says: starting from the listing `l` of
the directory with root-relative components `rel`, scanned at depth
`depth`, the walker reaches (and, writes permitting, emits) the regular
file whose further components are `p` and whose metadata is `md` — i.e.
every directory on the way is descended into: not excluded, not blocked
by the symlink test, and within the depth bound. -/

/-- The walker's descent relation (see module comment). -/
inductive EmitChain (opts : Opts) : List EItem → List Str → Nat → List Str → MetaData → Prop
  | here {l : List EItem} {rel : List Str} {depth : Nat} {name : Str} {ft : FType}
      {listing : Option (List EItem)} {md : MetaData}
      (hmem : EItem.node name (some ft) listing (some md) ∈ l)
      (hdir : ft.isDir = false) (hfile : ft.isFile = true) :
      EmitChain opts l rel depth [name] md
  | there {l : List EItem} {rel : List Str} {depth : Nat} {name : Str} {ft : FType}
      {items : List EItem} {omd : Option MetaData} {p : List Str} {md : MetaData}
      (hmem : EItem.node name (some ft) (some items) omd ∈ l)
      (hdir : ft.isDir = true)
      (hexc : should_exclude_dir name (relPosix (rel ++ [name])) opts.exclude_dirs = false)
      (hsym : (!opts.follow_symlinks && ft.isSymlink) = false)
      (hdepth : depth + 1 ≤ opts.max_depth)
      (htail : EmitChain opts items (rel ++ [name]) (depth + 1) p md) :
      EmitChain opts l rel depth (name :: p) md

/-- The same configuration with the depth bound raised by one. -/
def bump (opts : Opts) : Opts :=
  ⟨opts.max_depth + 1, opts.follow_symlinks, opts.exclude_dirs⟩

/-- The same configuration with the `follow_symlinks` flag replaced. -/
def withFollow (opts : Opts) (b : Bool) : Opts :=
  ⟨opts.max_depth, b, opts.exclude_dirs⟩

/-! ## The spec's formulation of token normalization

For the refinement claim about `normalize_pattern_token` the four steps of
the spec's §4.2 "Token normalization" are defined separately, following
the spec's words, and composed in order. -/

/-- Follows the spec's words: "trim surrounding whitespace". -/
def spec_trim_ws (s : Str) : Str :=
  ((s.dropWhile isWs).reverse.dropWhile isWs).reverse

/-- Follows the spec's words: "convert backslash separators to forward
slashes". -/
def spec_slashes (s : Str) : Str :=
  s.map (fun c => if c = '\\' then '/' else c)

/-- Follows the spec's words: "strip a trailing `/**` suffix" — when the
three final characters are `/`, `*`, `*`, remove them. -/
def spec_strip_glob_suffix (s : Str) : Str :=
  if List.isSuffixOf ['/', '*', '*'] s then s.dropLast.dropLast.dropLast else s

/-- Follows the spec's words: "strip any trailing slash characters" —
peel trailing `/` characters one at a time. -/
def spec_strip_trailing_slashes (s : Str) : Str :=
  if h : s.getLast? = some '/' then spec_strip_trailing_slashes s.dropLast else s
termination_by s.length
decreasing_by
  simp_wf
  have hne : s ≠ [] := by
    intro h0
    rw [h0] at h
    simp at h
  have h1 := List.length_dropLast s
  have hpos : 0 < s.length := List.length_pos.mpr hne
  omega

/-- The spec's whole normalization: the four steps in order. -/
def normalize_spec (pat : Str) : Str :=
  spec_strip_trailing_slashes (spec_strip_glob_suffix (spec_slashes (spec_trim_ws pat)))

/-! ### Step equations

The equations generated for the well-founded definitions case-split on the
`Option` fields, so we restate one clean step lemma per source branch and
use only these from now on. -/

theorem scan_entries_nil (opts : Opts) (sink : Sink) (rel : List Str)
    (depth : Nat) (s : SinkState) :
    scan_entries opts sink [] rel depth s = (true, s) := by
  rw [scan_entries.eq_def]

theorem scan_entries_err (opts : Opts) (sink : Sink) (rest : List EItem)
    (rel : List Str) (depth : Nat) (s : SinkState) :
    scan_entries opts sink (.err :: rest) rel depth s
      = scan_entries opts sink rest rel depth s := by
  rw [scan_entries.eq_def]

theorem scan_entries_noftype (opts : Opts) (sink : Sink) (name : Str)
    (listing : Option (List EItem)) (md : Option MetaData) (rest : List EItem)
    (rel : List Str) (depth : Nat) (s : SinkState) :
    scan_entries opts sink (.node name none listing md :: rest) rel depth s
      = scan_entries opts sink rest rel depth s := by
  rw [scan_entries.eq_def]

theorem scan_entries_dir_excluded (opts : Opts) (sink : Sink) (name : Str)
    (ft : FType) (listing : Option (List EItem)) (md : Option MetaData)
    (rest : List EItem) (rel : List Str) (depth : Nat) (s : SinkState)
    (hdir : ft.isDir = true)
    (hexc : should_exclude_dir name (relPosix (rel ++ [name])) opts.exclude_dirs = true) :
    scan_entries opts sink (.node name (some ft) listing md :: rest) rel depth s
      = scan_entries opts sink rest rel depth s := by
  rw [scan_entries.eq_def]; simp [hdir, hexc]

theorem scan_entries_dir_symlink (opts : Opts) (sink : Sink) (name : Str)
    (ft : FType) (listing : Option (List EItem)) (md : Option MetaData)
    (rest : List EItem) (rel : List Str) (depth : Nat) (s : SinkState)
    (hdir : ft.isDir = true)
    (hexc : should_exclude_dir name (relPosix (rel ++ [name])) opts.exclude_dirs = false)
    (hsym : (!opts.follow_symlinks && ft.isSymlink) = true) :
    scan_entries opts sink (.node name (some ft) listing md :: rest) rel depth s
      = scan_entries opts sink rest rel depth s := by
  rw [scan_entries.eq_def]; simp [hdir, hexc, hsym]

theorem scan_entries_dir_descend (opts : Opts) (sink : Sink) (name : Str)
    (ft : FType) (listing : Option (List EItem)) (md : Option MetaData)
    (rest : List EItem) (rel : List Str) (depth : Nat) (s : SinkState)
    (hdir : ft.isDir = true)
    (hexc : should_exclude_dir name (relPosix (rel ++ [name])) opts.exclude_dirs = false)
    (hsym : (!opts.follow_symlinks && ft.isSymlink) = false) :
    scan_entries opts sink (.node name (some ft) listing md :: rest) rel depth s
      = scan_entries opts sink rest rel depth
          (scan_dir opts sink listing (rel ++ [name]) (depth + 1) s).2 := by
  rw [scan_entries.eq_def]
  simp only [hdir, hexc, hsym, if_true, Bool.false_eq_true, if_false, scan_dir]

theorem scan_entries_file_nometa (opts : Opts) (sink : Sink) (name : Str)
    (ft : FType) (listing : Option (List EItem)) (rest : List EItem)
    (rel : List Str) (depth : Nat) (s : SinkState)
    (hdir : ft.isDir = false) (hfile : ft.isFile = true) :
    scan_entries opts sink (.node name (some ft) listing none :: rest) rel depth s
      = scan_entries opts sink rest rel depth s := by
  rw [scan_entries.eq_def]; simp [hdir, hfile]

theorem scan_entries_file (opts : Opts) (sink : Sink) (name : Str)
    (ft : FType) (listing : Option (List EItem)) (m : MetaData)
    (rest : List EItem) (rel : List Str) (depth : Nat) (s : SinkState)
    (hdir : ft.isDir = false) (hfile : ft.isFile = true) :
    scan_entries opts sink (.node name (some ft) listing (some m) :: rest) rel depth s
      = (let w := writeRecord sink ⟨rel ++ [name], mtimeOf m, m.size⟩ s
         if w.1 then scan_entries opts sink rest rel depth w.2 else (false, w.2)) := by
  rw [scan_entries.eq_def]; simp [hdir, hfile]

theorem scan_entries_other (opts : Opts) (sink : Sink) (name : Str)
    (ft : FType) (listing : Option (List EItem)) (md : Option MetaData)
    (rest : List EItem) (rel : List Str) (depth : Nat) (s : SinkState)
    (hdir : ft.isDir = false) (hfile : ft.isFile = false) :
    scan_entries opts sink (.node name (some ft) listing md :: rest) rel depth s
      = scan_entries opts sink rest rel depth s := by
  rw [scan_entries.eq_def]
  cases md <;> simp [hdir, hfile]

theorem emits_nil (opts : Opts) (rel : List Str) (depth : Nat) :
    emits opts [] rel depth = [] := by
  rw [emits.eq_def]

theorem emits_err (opts : Opts) (rest : List EItem) (rel : List Str) (depth : Nat) :
    emits opts (.err :: rest) rel depth = emits opts rest rel depth := by
  rw [emits.eq_def]

theorem emits_noftype (opts : Opts) (name : Str) (listing : Option (List EItem))
    (md : Option MetaData) (rest : List EItem) (rel : List Str) (depth : Nat) :
    emits opts (.node name none listing md :: rest) rel depth
      = emits opts rest rel depth := by
  rw [emits.eq_def]

theorem emits_dir_excluded (opts : Opts) (name : Str) (ft : FType)
    (listing : Option (List EItem)) (md : Option MetaData) (rest : List EItem)
    (rel : List Str) (depth : Nat)
    (hdir : ft.isDir = true)
    (hexc : should_exclude_dir name (relPosix (rel ++ [name])) opts.exclude_dirs = true) :
    emits opts (.node name (some ft) listing md :: rest) rel depth
      = emits opts rest rel depth := by
  rw [emits.eq_def]; simp [hdir, hexc]

theorem emits_dir_symlink (opts : Opts) (name : Str) (ft : FType)
    (listing : Option (List EItem)) (md : Option MetaData) (rest : List EItem)
    (rel : List Str) (depth : Nat)
    (hdir : ft.isDir = true)
    (hexc : should_exclude_dir name (relPosix (rel ++ [name])) opts.exclude_dirs = false)
    (hsym : (!opts.follow_symlinks && ft.isSymlink) = true) :
    emits opts (.node name (some ft) listing md :: rest) rel depth
      = emits opts rest rel depth := by
  rw [emits.eq_def]; simp [hdir, hexc, hsym]

theorem emits_dir_descend (opts : Opts) (name : Str) (ft : FType)
    (listing : Option (List EItem)) (md : Option MetaData) (rest : List EItem)
    (rel : List Str) (depth : Nat)
    (hdir : ft.isDir = true)
    (hexc : should_exclude_dir name (relPosix (rel ++ [name])) opts.exclude_dirs = false)
    (hsym : (!opts.follow_symlinks && ft.isSymlink) = false) :
    emits opts (.node name (some ft) listing md :: rest) rel depth
      = emitsDir opts listing (rel ++ [name]) (depth + 1) ++ emits opts rest rel depth := by
  rw [emits.eq_def]
  simp only [hdir, hexc, hsym, if_true, Bool.false_eq_true, if_false, emitsDir]

theorem emits_file_nometa (opts : Opts) (name : Str) (ft : FType)
    (listing : Option (List EItem)) (rest : List EItem) (rel : List Str) (depth : Nat)
    (hdir : ft.isDir = false) (hfile : ft.isFile = true) :
    emits opts (.node name (some ft) listing none :: rest) rel depth
      = emits opts rest rel depth := by
  rw [emits.eq_def]; simp [hdir, hfile]

theorem emits_file (opts : Opts) (name : Str) (ft : FType)
    (listing : Option (List EItem)) (m : MetaData) (rest : List EItem)
    (rel : List Str) (depth : Nat)
    (hdir : ft.isDir = false) (hfile : ft.isFile = true) :
    emits opts (.node name (some ft) listing (some m) :: rest) rel depth
      = ⟨rel ++ [name], mtimeOf m, m.size⟩ :: emits opts rest rel depth := by
  rw [emits.eq_def]; simp [hdir, hfile]

theorem emits_other (opts : Opts) (name : Str) (ft : FType)
    (listing : Option (List EItem)) (md : Option MetaData) (rest : List EItem)
    (rel : List Str) (depth : Nat)
    (hdir : ft.isDir = false) (hfile : ft.isFile = false) :
    emits opts (.node name (some ft) listing md :: rest) rel depth
      = emits opts rest rel depth := by
  rw [emits.eq_def]
  cases md <;> simp [hdir, hfile]

/-- With the always-succeeding sink, `scan_entries` returns `Ok` and
appends exactly the ideal stream to the sink. -/
theorem scan_entries_okSink (opts : Opts) (l : List EItem) (rel : List Str)
    (depth : Nat) (s : SinkState) :
    scan_entries opts okSink l rel depth s
      = (true, ⟨s.writes + (emits opts l rel depth).length,
                s.out ++ emits opts l rel depth⟩) := by
  induction l, rel, depth, s using scan_entries.induct opts okSink with
  | case1 rel depth s => simp [scan_entries_nil, emits_nil]
  | case2 rest rel depth s ih => simp [scan_entries_err, emits_err, ih]
  | case3 name listing md rest rel depth s ih =>
    simp [scan_entries_noftype, emits_noftype, ih]
  | case4 name listing md rest rel depth s ft hdir hexc ih =>
    simp [scan_entries_dir_excluded _ _ _ _ _ _ _ _ _ _ hdir hexc,
      emits_dir_excluded _ _ _ _ _ _ _ _ hdir hexc, ih]
  | case5 name listing md rest rel depth s ft hdir hexc hsym ih =>
    rw [Bool.not_eq_true] at hexc
    rw [scan_entries_dir_symlink _ _ _ _ _ _ _ _ _ _ hdir hexc hsym,
      emits_dir_symlink _ _ _ _ _ _ _ _ hdir hexc hsym]
    exact ih
  | case6 name listing md rest rel depth s ft hdir hexc hsym rec_result ih_items ih_rest =>
    rw [Bool.not_eq_true] at hexc
    rw [Bool.not_eq_true] at hsym
    rw [scan_entries_dir_descend _ _ _ _ _ _ _ _ _ _ hdir hexc hsym,
      emits_dir_descend _ _ _ _ _ _ _ _ hdir hexc hsym]
    unfold rec_result at ih_rest
    clear rec_result
    simp only [scan_dir, emitsDir]
    by_cases hd : depth + 1 > opts.max_depth
    · simp only [hd, dite_true, if_true] at ih_rest ⊢
      simpa using ih_rest
    · simp only [hd, dite_false, if_false] at ih_rest ⊢
      cases listing with
      | none => simpa using ih_rest
      | some items =>
        have ih2 : scan_entries opts okSink items (rel ++ [name]) (depth + 1) s
            = (true, ⟨s.writes + (emits opts items (rel ++ [name]) (depth + 1)).length,
                      s.out ++ emits opts items (rel ++ [name]) (depth + 1)⟩) := ih_items
        simp only [ih2] at ih_rest ⊢
        simp only [ih_rest]
        simp [List.append_assoc, Nat.add_assoc]
  | case7 name listing rest rel depth s ft hdir hfile ih =>
    rw [Bool.not_eq_true] at hdir
    simp [scan_entries_file_nometa _ _ _ _ _ _ _ _ _ hdir hfile,
      emits_file_nometa _ _ _ _ _ _ _ hdir hfile, ih]
  | case8 name listing rest rel depth s ft hdir hfile m w hw ih =>
    rw [Bool.not_eq_true] at hdir
    rw [scan_entries_file _ _ _ _ _ _ _ _ _ _ hdir hfile,
      emits_file _ _ _ _ _ _ _ _ hdir hfile]
    unfold w at ih
    clear hw w
    simp only [writeRecord, okSink, if_true] at ih ⊢
    rw [ih]
    simp [Nat.add_comm, Nat.add_assoc, Nat.add_left_comm]
  | case9 name listing rest rel depth s ft hdir hfile m w hw =>
    unfold w at hw
    simp [writeRecord, okSink] at hw
  | case10 name listing md rest rel depth s ft hdir hfile ih =>
    rw [Bool.not_eq_true] at hdir
    rw [Bool.not_eq_true] at hfile
    simp [scan_entries_other _ _ _ _ _ _ _ _ _ _ hdir hfile,
      emits_other _ _ _ _ _ _ _ _ hdir hfile, ih]

/-- `scan_dir` with the always-succeeding sink appends exactly the ideal
stream. -/
theorem scan_dir_okSink (opts : Opts) (listing : Option (List EItem))
    (rel : List Str) (depth : Nat) (s : SinkState) :
    scan_dir opts okSink listing rel depth s
      = (true, ⟨s.writes + (emitsDir opts listing rel depth).length,
                s.out ++ emitsDir opts listing rel depth⟩) := by
  unfold scan_dir emitsDir
  by_cases hd : depth > opts.max_depth
  · simp [hd]
  · cases listing with
    | none => simp [hd]
    | some items => simp [hd, scan_entries_okSink]

/-- The write counter never decreases across the loop. -/
theorem scan_entries_writes_mono (opts : Opts) (sink : Sink) (l : List EItem)
    (rel : List Str) (depth : Nat) (s : SinkState) :
    s.writes ≤ (scan_entries opts sink l rel depth s).2.writes := by
  induction l, rel, depth, s using scan_entries.induct opts sink with
  | case1 rel depth s => simp [scan_entries_nil]
  | case2 rest rel depth s ih => simpa [scan_entries_err] using ih
  | case3 name listing md rest rel depth s ih =>
    simpa [scan_entries_noftype] using ih
  | case4 name listing md rest rel depth s ft hdir hexc ih =>
    simpa [scan_entries_dir_excluded _ _ _ _ _ _ _ _ _ _ hdir hexc] using ih
  | case5 name listing md rest rel depth s ft hdir hexc hsym ih =>
    rw [Bool.not_eq_true] at hexc
    simpa [scan_entries_dir_symlink _ _ _ _ _ _ _ _ _ _ hdir hexc hsym] using ih
  | case6 name listing md rest rel depth s ft hdir hexc hsym rec_result ih_items ih_rest =>
    rw [Bool.not_eq_true] at hexc
    rw [Bool.not_eq_true] at hsym
    rw [scan_entries_dir_descend _ _ _ _ _ _ _ _ _ _ hdir hexc hsym]
    unfold rec_result at ih_rest
    clear rec_result
    simp only [scan_dir]
    by_cases hd : depth + 1 > opts.max_depth
    · simp only [hd, dite_true, if_true] at ih_rest ⊢
      simpa using ih_rest
    · simp only [hd, dite_false, if_false] at ih_rest ⊢
      cases listing with
      | none => simpa using ih_rest
      | some items =>
        have h1 : s.writes ≤ (scan_entries opts sink items (rel ++ [name]) (depth + 1) s).2.writes :=
          ih_items
        exact le_trans h1 ih_rest
  | case7 name listing rest rel depth s ft hdir hfile ih =>
    rw [Bool.not_eq_true] at hdir
    simpa [scan_entries_file_nometa _ _ _ _ _ _ _ _ _ hdir hfile] using ih
  | case8 name listing rest rel depth s ft hdir hfile m w hw ih =>
    rw [Bool.not_eq_true] at hdir
    rw [scan_entries_file _ _ _ _ _ _ _ _ _ _ hdir hfile]
    unfold w at hw ih
    clear w
    simp only [hw, if_true]
    refine le_trans ?_ ih
    by_cases h : sink s.writes <;> simp [writeRecord, h]
  | case9 name listing rest rel depth s ft hdir hfile m w hw =>
    rw [Bool.not_eq_true] at hdir
    rw [Bool.not_eq_true] at hw
    rw [scan_entries_file _ _ _ _ _ _ _ _ _ _ hdir hfile]
    unfold w at hw
    clear w
    simp only [hw, Bool.false_eq_true, if_false]
    by_cases h : sink s.writes <;> simp [writeRecord, h]
  | case10 name listing md rest rel depth s ft hdir hfile ih =>
    rw [Bool.not_eq_true] at hdir
    rw [Bool.not_eq_true] at hfile
    simpa [scan_entries_other _ _ _ _ _ _ _ _ _ _ hdir hfile] using ih

/-- Version of `scan_entries_writes_mono` for `scan_dir`. -/
theorem scan_dir_writes_mono (opts : Opts) (sink : Sink)
    (listing : Option (List EItem)) (rel : List Str) (depth : Nat) (s : SinkState) :
    s.writes ≤ (scan_dir opts sink listing rel depth s).2.writes := by
  unfold scan_dir
  by_cases hd : depth > opts.max_depth
  · simp [hd]
  · cases listing with
    | none => simp [hd]
    | some items => simpa [hd] using scan_entries_writes_mono opts sink items rel depth s

/-- Whatever the sink does, the loop appends (in order) a sublist of the
ideal stream: a failed write never invents or reorders records, it only
truncates the directory it happens in. -/
theorem scan_entries_out_sublist (opts : Opts) (sink : Sink) (l : List EItem)
    (rel : List Str) (depth : Nat) (s : SinkState) :
    ∃ t, (scan_entries opts sink l rel depth s).2.out = s.out ++ t
      ∧ t.Sublist (emits opts l rel depth) := by
  induction l, rel, depth, s using scan_entries.induct opts sink with
  | case1 rel depth s => exact ⟨[], by simp [scan_entries_nil], by simp [emits_nil]⟩
  | case2 rest rel depth s ih =>
    obtain ⟨t, h1, h2⟩ := ih
    exact ⟨t, by simpa [scan_entries_err] using h1, by simpa [emits_err] using h2⟩
  | case3 name listing md rest rel depth s ih =>
    obtain ⟨t, h1, h2⟩ := ih
    exact ⟨t, by simpa [scan_entries_noftype] using h1,
      by simpa [emits_noftype] using h2⟩
  | case4 name listing md rest rel depth s ft hdir hexc ih =>
    obtain ⟨t, h1, h2⟩ := ih
    exact ⟨t, by simpa [scan_entries_dir_excluded _ _ _ _ _ _ _ _ _ _ hdir hexc] using h1,
      by simpa [emits_dir_excluded _ _ _ _ _ _ _ _ hdir hexc] using h2⟩
  | case5 name listing md rest rel depth s ft hdir hexc hsym ih =>
    rw [Bool.not_eq_true] at hexc
    obtain ⟨t, h1, h2⟩ := ih
    exact ⟨t, by simpa [scan_entries_dir_symlink _ _ _ _ _ _ _ _ _ _ hdir hexc hsym] using h1,
      by simpa [emits_dir_symlink _ _ _ _ _ _ _ _ hdir hexc hsym] using h2⟩
  | case6 name listing md rest rel depth s ft hdir hexc hsym rec_result ih_items ih_rest =>
    rw [Bool.not_eq_true] at hexc
    rw [Bool.not_eq_true] at hsym
    rw [scan_entries_dir_descend _ _ _ _ _ _ _ _ _ _ hdir hexc hsym,
      emits_dir_descend _ _ _ _ _ _ _ _ hdir hexc hsym]
    unfold rec_result at ih_rest
    clear rec_result
    simp only [scan_dir, emitsDir]
    by_cases hd : depth + 1 > opts.max_depth
    · simp only [hd, dite_true, if_true] at ih_rest ⊢
      obtain ⟨t, h1, h2⟩ := ih_rest
      exact ⟨t, h1, by simpa using h2.append_left []⟩
    · simp only [hd, dite_false, if_false] at ih_rest ⊢
      cases listing with
      | none =>
        obtain ⟨t, h1, h2⟩ := ih_rest
        exact ⟨t, h1, by simpa using h2.append_left []⟩
      | some items =>
        obtain ⟨t1, g1, g2⟩ := ih_items
        obtain ⟨t2, h1, h2⟩ := ih_rest
        refine ⟨t1 ++ t2, ?_, g2.append h2⟩
        rw [h1, g1, List.append_assoc]
  | case7 name listing rest rel depth s ft hdir hfile ih =>
    rw [Bool.not_eq_true] at hdir
    obtain ⟨t, h1, h2⟩ := ih
    exact ⟨t, by simpa [scan_entries_file_nometa _ _ _ _ _ _ _ _ _ hdir hfile] using h1,
      by simpa [emits_file_nometa _ _ _ _ _ _ _ hdir hfile] using h2⟩
  | case8 name listing rest rel depth s ft hdir hfile m w hw ih =>
    rw [Bool.not_eq_true] at hdir
    rw [scan_entries_file _ _ _ _ _ _ _ _ _ _ hdir hfile,
      emits_file _ _ _ _ _ _ _ _ hdir hfile]
    unfold w at hw ih
    clear w
    simp only [writeRecord] at hw
    by_cases h : sink s.writes
    · simp only [writeRecord, h, if_true] at ih ⊢
      obtain ⟨t, h1, h2⟩ := ih
      refine ⟨⟨rel ++ [name], mtimeOf m, m.size⟩ :: t, ?_, h2.cons₂ _⟩
      simpa [List.append_assoc] using h1
    · simp [h] at hw
  | case9 name listing rest rel depth s ft hdir hfile m w hw =>
    rw [Bool.not_eq_true] at hdir
    rw [Bool.not_eq_true] at hw
    rw [scan_entries_file _ _ _ _ _ _ _ _ _ _ hdir hfile,
      emits_file _ _ _ _ _ _ _ _ hdir hfile]
    unfold w at hw
    clear w
    simp only [hw, Bool.false_eq_true, if_false]
    simp only [writeRecord] at hw ⊢
    by_cases h : sink s.writes
    · simp [h] at hw
    · simp only [h, Bool.false_eq_true, if_false]
      exact ⟨[], by simp, by simp⟩
  | case10 name listing md rest rel depth s ft hdir hfile ih =>
    rw [Bool.not_eq_true] at hdir
    rw [Bool.not_eq_true] at hfile
    obtain ⟨t, h1, h2⟩ := ih
    exact ⟨t, by simpa [scan_entries_other _ _ _ _ _ _ _ _ _ _ hdir hfile] using h1,
      by simpa [emits_other _ _ _ _ _ _ _ _ hdir hfile] using h2⟩

/-- If the loop returns `Err`, some write attempt made during it failed:
a sink write failure is the only source of a failing result. -/
theorem scan_entries_false_write_failed (opts : Opts) (sink : Sink) (l : List EItem)
    (rel : List Str) (depth : Nat) (s : SinkState)
    (hfail : (scan_entries opts sink l rel depth s).1 = false) :
    ∃ k, s.writes ≤ k ∧ k < (scan_entries opts sink l rel depth s).2.writes
      ∧ sink k = false := by
  induction l, rel, depth, s using scan_entries.induct opts sink with
  | case1 rel depth s => simp [scan_entries_nil] at hfail
  | case2 rest rel depth s ih =>
    rw [scan_entries_err] at hfail ⊢
    exact ih hfail
  | case3 name listing md rest rel depth s ih =>
    rw [scan_entries_noftype] at hfail ⊢
    exact ih hfail
  | case4 name listing md rest rel depth s ft hdir hexc ih =>
    rw [scan_entries_dir_excluded _ _ _ _ _ _ _ _ _ _ hdir hexc] at hfail ⊢
    exact ih hfail
  | case5 name listing md rest rel depth s ft hdir hexc hsym ih =>
    rw [Bool.not_eq_true] at hexc
    rw [scan_entries_dir_symlink _ _ _ _ _ _ _ _ _ _ hdir hexc hsym] at hfail ⊢
    exact ih hfail
  | case6 name listing md rest rel depth s ft hdir hexc hsym rec_result ih_items ih_rest =>
    rw [Bool.not_eq_true] at hexc
    rw [Bool.not_eq_true] at hsym
    rw [scan_entries_dir_descend _ _ _ _ _ _ _ _ _ _ hdir hexc hsym] at hfail ⊢
    unfold rec_result at ih_rest
    clear rec_result ih_items
    simp only [scan_dir] at hfail ⊢
    by_cases hd : depth + 1 > opts.max_depth
    · simp only [hd, dite_true, if_true] at ih_rest hfail ⊢
      exact ih_rest hfail
    · simp only [hd, dite_false, if_false] at ih_rest hfail ⊢
      cases listing with
      | none => exact ih_rest hfail
      | some items =>
        obtain ⟨k, hk1, hk2, hk3⟩ := ih_rest hfail
        exact ⟨k, le_trans (scan_entries_writes_mono opts sink items
          (rel ++ [name]) (depth + 1) s) hk1, hk2, hk3⟩
  | case7 name listing rest rel depth s ft hdir hfile ih =>
    rw [Bool.not_eq_true] at hdir
    rw [scan_entries_file_nometa _ _ _ _ _ _ _ _ _ hdir hfile] at hfail ⊢
    exact ih hfail
  | case8 name listing rest rel depth s ft hdir hfile m w hw ih =>
    rw [Bool.not_eq_true] at hdir
    rw [scan_entries_file _ _ _ _ _ _ _ _ _ _ hdir hfile] at hfail ⊢
    unfold w at hw ih
    clear w
    simp only [hw, if_true] at hfail ⊢
    obtain ⟨k, hk1, hk2, hk3⟩ := ih hfail
    refine ⟨k, le_trans ?_ hk1, hk2, hk3⟩
    by_cases h : sink s.writes <;> simp [writeRecord, h]
  | case9 name listing rest rel depth s ft hdir hfile m w hw =>
    rw [Bool.not_eq_true] at hdir
    rw [Bool.not_eq_true] at hw
    rw [scan_entries_file _ _ _ _ _ _ _ _ _ _ hdir hfile] at hfail ⊢
    unfold w at hw
    clear w
    simp only [hw, Bool.false_eq_true, if_false] at hfail ⊢
    simp only [writeRecord] at hw ⊢
    by_cases h : sink s.writes
    · simp [h] at hw
    · refine ⟨s.writes, le_refl _, ?_, by simpa using h⟩
      simp [h]
  | case10 name listing md rest rel depth s ft hdir hfile ih =>
    rw [Bool.not_eq_true] at hdir
    rw [Bool.not_eq_true] at hfile
    rw [scan_entries_other _ _ _ _ _ _ _ _ _ _ hdir hfile] at hfail ⊢
    exact ih hfail

/-- Version of `scan_entries_out_sublist` for `scan_dir`. -/
theorem scan_dir_out_sublist (opts : Opts) (sink : Sink)
    (listing : Option (List EItem)) (rel : List Str) (depth : Nat) (s : SinkState) :
    ∃ t, (scan_dir opts sink listing rel depth s).2.out = s.out ++ t
      ∧ t.Sublist (emitsDir opts listing rel depth) := by
  unfold scan_dir emitsDir
  by_cases hd : depth > opts.max_depth
  · exact ⟨[], by simp [hd], by simp [hd]⟩
  · cases listing with
    | none => exact ⟨[], by simp [hd], by simp [hd]⟩
    | some items =>
      simpa [hd] using scan_entries_out_sublist opts sink items rel depth s

/-- An `EmitChain` only inspects the top listing through membership, so it
is monotone under listing extension. -/
theorem EmitChain.mono {opts : Opts} {l l' : List EItem} {rel : List Str}
    {depth : Nat} {p : List Str} {md : MetaData}
    (hsub : ∀ x, x ∈ l → x ∈ l') (h : EmitChain opts l rel depth p md) :
    EmitChain opts l' rel depth p md := by
  cases h with
  | here hmem hdir hfile => exact .here (hsub _ hmem) hdir hfile
  | there hmem hdir hexc hsym hdepth htail =>
    exact .there (hsub _ hmem) hdir hexc hsym hdepth htail

/-- An emitted record decomposes a `cons` listing into the head's
contribution followed by the tail's. -/
theorem emits_cons (opts : Opts) (e : EItem) (rest : List EItem)
    (rel : List Str) (depth : Nat) :
    emits opts (e :: rest) rel depth
      = emits opts [e] rel depth ++ emits opts rest rel depth := by
  cases e with
  | err => simp [emits_err, emits_nil]
  | node name ftype listing md =>
    cases ftype with
    | none => simp [emits_noftype, emits_nil]
    | some ft =>
      by_cases hdir : ft.isDir
      · by_cases hexc : should_exclude_dir name (relPosix (rel ++ [name])) opts.exclude_dirs
        · simp [emits_dir_excluded _ _ _ _ _ _ _ _ hdir hexc, emits_nil]
        · rw [Bool.not_eq_true] at hexc
          by_cases hsym : (!opts.follow_symlinks && ft.isSymlink) = true
          · simp [emits_dir_symlink _ _ _ _ _ _ _ _ hdir hexc hsym, emits_nil]
          · rw [Bool.not_eq_true] at hsym
            simp [emits_dir_descend _ _ _ _ _ _ _ _ hdir hexc hsym, emits_nil]
      · rw [Bool.not_eq_true] at hdir
        by_cases hfile : ft.isFile
        · cases md with
          | none => simp [emits_file_nometa _ _ _ _ _ _ _ hdir hfile, emits_nil]
          | some m => simp [emits_file _ _ _ _ _ _ _ _ hdir hfile, emits_nil]
        · rw [Bool.not_eq_true] at hfile
          simp [emits_other _ _ _ _ _ _ _ _ hdir hfile, emits_nil]

/-- A record contributed by one item of a listing is in the listing's
stream. -/
theorem emits_mem_of_item (opts : Opts) {e : EItem} {l : List EItem}
    (he : e ∈ l) (rel : List Str) (depth : Nat) {r : Record}
    (hr : r ∈ emits opts [e] rel depth) : r ∈ emits opts l rel depth := by
  induction l with
  | nil => cases he
  | cons x rest ih =>
    rw [emits_cons]
    rcases List.mem_cons.mp he with hx | hx
    · subst hx
      exact List.mem_append_left _ hr
    · exact List.mem_append_right _ (ih hx)

/-- Soundness of the chain relation: every record in the ideal stream
arises from a walker descent chain. -/
theorem emits_sound (opts : Opts) (l : List EItem) (rel : List Str) (depth : Nat)
    (r : Record) (hr : r ∈ emits opts l rel depth) :
    ∃ p md, r = ⟨rel ++ p, mtimeOf md, md.size⟩ ∧ EmitChain opts l rel depth p md := by
  induction l, rel, depth using emits.induct opts with
  | case1 rel depth => simp [emits_nil] at hr
  | case2 rest rel depth ih =>
    rw [emits_err] at hr
    obtain ⟨p, md, h1, h2⟩ := ih hr
    exact ⟨p, md, h1, h2.mono (fun x hx => List.mem_cons_of_mem _ hx)⟩
  | case3 name listing md rest rel depth ih =>
    rw [emits_noftype] at hr
    obtain ⟨p, md, h1, h2⟩ := ih hr
    exact ⟨p, md, h1, h2.mono (fun x hx => List.mem_cons_of_mem _ hx)⟩
  | case4 name listing md rest rel depth ft hdir hexc ih =>
    rw [emits_dir_excluded _ _ _ _ _ _ _ _ hdir hexc] at hr
    obtain ⟨p, md, h1, h2⟩ := ih hr
    exact ⟨p, md, h1, h2.mono (fun x hx => List.mem_cons_of_mem _ hx)⟩
  | case5 name listing md rest rel depth ft hdir hexc hsym ih =>
    rw [Bool.not_eq_true] at hexc
    rw [emits_dir_symlink _ _ _ _ _ _ _ _ hdir hexc hsym] at hr
    obtain ⟨p, md, h1, h2⟩ := ih hr
    exact ⟨p, md, h1, h2.mono (fun x hx => List.mem_cons_of_mem _ hx)⟩
  | case6 name listing md rest rel depth ft hdir hexc hsym ih_items ih_rest =>
    rw [Bool.not_eq_true] at hexc
    rw [Bool.not_eq_true] at hsym
    rw [emits_dir_descend _ _ _ _ _ _ _ _ hdir hexc hsym] at hr
    rcases List.mem_append.mp hr with hin | hin
    · unfold emitsDir at hin
      by_cases hd : depth + 1 > opts.max_depth
      · simp [hd] at hin
      · simp only [hd, if_false] at hin
        cases listing with
        | none => simp at hin
        | some items =>
          obtain ⟨p, pmd, h1, h2⟩ := ih_items hin
          refine ⟨name :: p, pmd, by simp [h1], ?_⟩
          exact .there (List.mem_cons_self _ _) hdir hexc hsym (by omega) h2
    · obtain ⟨p, pmd, h1, h2⟩ := ih_rest hin
      exact ⟨p, pmd, h1, h2.mono (fun x hx => List.mem_cons_of_mem _ hx)⟩
  | case7 name listing rest rel depth ft hdir hfile ih =>
    rw [Bool.not_eq_true] at hdir
    rw [emits_file_nometa _ _ _ _ _ _ _ hdir hfile] at hr
    obtain ⟨p, md, h1, h2⟩ := ih hr
    exact ⟨p, md, h1, h2.mono (fun x hx => List.mem_cons_of_mem _ hx)⟩
  | case8 name listing rest rel depth ft hdir hfile m ih =>
    rw [Bool.not_eq_true] at hdir
    rw [emits_file _ _ _ _ _ _ _ _ hdir hfile] at hr
    rcases List.mem_cons.mp hr with hx | hx
    · exact ⟨[name], m, hx, .here (List.mem_cons_self _ _) hdir hfile⟩
    · obtain ⟨p, md, h1, h2⟩ := ih hx
      exact ⟨p, md, h1, h2.mono (fun x hx => List.mem_cons_of_mem _ hx)⟩
  | case9 name listing md rest rel depth ft hdir hfile ih =>
    rw [Bool.not_eq_true] at hdir
    rw [Bool.not_eq_true] at hfile
    rw [emits_other _ _ _ _ _ _ _ _ hdir hfile] at hr
    obtain ⟨p, md, h1, h2⟩ := ih hr
    exact ⟨p, md, h1, h2.mono (fun x hx => List.mem_cons_of_mem _ hx)⟩

/-- Completeness of the chain relation: every file the walker's descent
relation reaches is in the ideal stream. -/
theorem emits_complete (opts : Opts) {l : List EItem} {rel : List Str} {depth : Nat}
    {p : List Str} {md : MetaData} (h : EmitChain opts l rel depth p md) :
    (⟨rel ++ p, mtimeOf md, md.size⟩ : Record) ∈ emits opts l rel depth := by
  induction h with
  | @here l rel depth name ft listing md hmem hdir hfile =>
    apply emits_mem_of_item opts hmem
    rw [emits_file _ _ _ _ _ _ _ _ hdir hfile]
    simp [emits_nil]
  | @there l rel depth name ft items omd p md hmem hdir hexc hsym hdepth htail ih =>
    apply emits_mem_of_item opts hmem
    rw [emits_dir_descend _ _ _ _ _ _ _ _ hdir hexc hsym]
    unfold emitsDir
    have hd : ¬ (depth + 1 > opts.max_depth) := by omega
    simp only [hd, if_false, emits_nil, List.append_nil]
    simpa [List.append_assoc] using ih

/-- The depth conditions along a chain bound its length. -/
theorem EmitChain.depth_bound {opts : Opts} {l : List EItem} {rel : List Str}
    {depth : Nat} {p : List Str} {md : MetaData}
    (h : EmitChain opts l rel depth p md) :
    depth + p.length ≤ max opts.max_depth depth + 1 := by
  induction h with
  | @here l rel depth name ft listing md hmem hdir hfile =>
    simp only [List.length_cons, List.length_nil]
    omega
  | @there l rel depth name ft items omd p md hmem hdir hexc hsym hdepth htail ih =>
    simp only [List.length_cons] at ih ⊢
    omega

/-- No strict ancestor directory along a chain is excluded. -/
theorem EmitChain.not_excluded {opts : Opts} {l : List EItem} {rel : List Str}
    {depth : Nat} {p : List Str} {md : MetaData}
    (h : EmitChain opts l rel depth p md) :
    ∀ q n r2, p = q ++ n :: r2 → r2 ≠ [] →
      should_exclude_dir n (relPosix (rel ++ q ++ [n])) opts.exclude_dirs = false := by
  induction h with
  | @here l rel depth name ft listing md hmem hdir hfile =>
    intro q n r2 hp hr
    cases q with
    | nil =>
      simp only [List.nil_append, List.cons.injEq] at hp
      exact absurd hp.2.symm hr
    | cons a q' =>
      simp only [List.cons_append, List.cons.injEq] at hp
      exact absurd hp.2 (by simp)
  | @there l rel depth name ft items omd p md hmem hdir hexc hsym hdepth htail ih =>
    intro q n r2 hp hr
    cases q with
    | nil =>
      simp only [List.nil_append, List.cons.injEq] at hp
      obtain ⟨h1, h2⟩ := hp
      subst h1
      simpa using hexc
    | cons a q' =>
      simp only [List.cons_append, List.cons.injEq] at hp
      obtain ⟨h1, h2⟩ := hp
      subst h1
      have := ih q' n r2 h2 hr
      simpa [List.append_assoc] using this

/-- Inside the `is_dir` branch the entry can only be `FType.dir`, so the
`is_symlink` test of line 118 can only see `false`. -/
theorem isSymlink_false_of_isDir {ft : FType} (hdir : ft.isDir = true) :
    ft.isSymlink = false := by
  revert hdir
  cases ft <;> decide

theorem withFollow_max_depth (opts : Opts) (b : Bool) :
    (withFollow opts b).max_depth = opts.max_depth := rfl

theorem withFollow_exclude (opts : Opts) (b : Bool) :
    (withFollow opts b).exclude_dirs = opts.exclude_dirs := rfl

/-- Changing the `follow_symlinks` flag never changes the loop: the flag
is consulted only at line 118, inside the `is_dir` branch, where
`is_symlink` is always `false` because `entry.file_type()` does not
traverse symlinks — so both configurations take the same branch at every
entry. -/
theorem scan_entries_follow_irrelevant (opts : Opts) (sink : Sink) (b : Bool)
    (l : List EItem) (rel : List Str) (depth : Nat) (s : SinkState) :
    scan_entries (withFollow opts b) sink l rel depth s
      = scan_entries opts sink l rel depth s := by
  induction l, rel, depth, s using scan_entries.induct opts sink with
  | case1 rel depth s => rw [scan_entries_nil, scan_entries_nil]
  | case2 rest rel depth s ih => rw [scan_entries_err, scan_entries_err, ih]
  | case3 name listing md rest rel depth s ih =>
    rw [scan_entries_noftype, scan_entries_noftype, ih]
  | case4 name listing md rest rel depth s ft hdir hexc ih =>
    rw [scan_entries_dir_excluded (withFollow opts b) _ _ _ _ _ _ _ _ _ hdir hexc,
      scan_entries_dir_excluded opts _ _ _ _ _ _ _ _ _ hdir hexc, ih]
  | case5 name listing md rest rel depth s ft hdir hexc hsym =>
    rw [isSymlink_false_of_isDir hdir] at hsym
    simp at hsym
  | case6 name listing md rest rel depth s ft hdir hexc hsym rec_result ih_items ih_rest =>
    rw [Bool.not_eq_true] at hexc
    have hsymf : ft.isSymlink = false := isSymlink_false_of_isDir hdir
    have hs1 : (!(withFollow opts b).follow_symlinks && ft.isSymlink) = false := by
      rw [hsymf]
      exact Bool.and_false _
    have hs2 : (!opts.follow_symlinks && ft.isSymlink) = false := by
      rw [hsymf]
      exact Bool.and_false _
    rw [scan_entries_dir_descend (withFollow opts b) _ _ _ _ _ _ _ _ _ hdir hexc hs1,
      scan_entries_dir_descend opts _ _ _ _ _ _ _ _ _ hdir hexc hs2]
    unfold rec_result at ih_rest
    clear rec_result
    unfold scan_dir
    simp only [withFollow_max_depth]
    by_cases hd : depth + 1 > opts.max_depth
    · simp only [hd, dite_true, if_true] at ih_rest ⊢
      exact ih_rest
    · simp only [hd, dite_false, if_false] at ih_rest ⊢
      cases listing with
      | none => exact ih_rest
      | some items =>
        have h1 : scan_entries (withFollow opts b) sink items (rel ++ [name]) (depth + 1) s
            = scan_entries opts sink items (rel ++ [name]) (depth + 1) s := ih_items
        simp only [h1]
        exact ih_rest
  | case7 name listing rest rel depth s ft hdir hfile ih =>
    rw [Bool.not_eq_true] at hdir
    rw [scan_entries_file_nometa (withFollow opts b) _ _ _ _ _ _ _ _ hdir hfile,
      scan_entries_file_nometa opts _ _ _ _ _ _ _ _ hdir hfile, ih]
  | case8 name listing rest rel depth s ft hdir hfile m w hw ih =>
    rw [Bool.not_eq_true] at hdir
    rw [scan_entries_file (withFollow opts b) _ _ _ _ _ _ _ _ _ hdir hfile,
      scan_entries_file opts _ _ _ _ _ _ _ _ _ hdir hfile]
    unfold w at hw ih
    clear w
    simp only [hw, if_true]
    exact ih
  | case9 name listing rest rel depth s ft hdir hfile m w hw =>
    rw [Bool.not_eq_true] at hdir
    rw [Bool.not_eq_true] at hw
    rw [scan_entries_file (withFollow opts b) _ _ _ _ _ _ _ _ _ hdir hfile,
      scan_entries_file opts _ _ _ _ _ _ _ _ _ hdir hfile]
    unfold w at hw
    clear w
    simp only [hw, Bool.false_eq_true, if_false]
  | case10 name listing md rest rel depth s ft hdir hfile ih =>
    rw [Bool.not_eq_true] at hdir
    rw [Bool.not_eq_true] at hfile
    rw [scan_entries_other (withFollow opts b) _ _ _ _ _ _ _ _ _ hdir hfile,
      scan_entries_other opts _ _ _ _ _ _ _ _ _ hdir hfile, ih]

/-- Version of `scan_entries_follow_irrelevant` for `scan_dir`. -/
theorem scan_dir_follow_irrelevant (opts : Opts) (sink : Sink) (b : Bool)
    (listing : Option (List EItem)) (rel : List Str) (depth : Nat) (s : SinkState) :
    scan_dir (withFollow opts b) sink listing rel depth s
      = scan_dir opts sink listing rel depth s := by
  unfold scan_dir
  simp only [withFollow_max_depth]
  by_cases hd : depth > opts.max_depth
  · simp [hd]
  · cases listing with
    | none => simp [hd]
    | some items => simp [hd, scan_entries_follow_irrelevant]

/-- Version of `scan_entries_follow_irrelevant` for `main`'s invocation. -/
theorem run_scan_follow_irrelevant (opts : Opts) (sink : Sink) (b : Bool)
    (root_listing : Option (List EItem)) :
    run_scan (withFollow opts b) sink root_listing = run_scan opts sink root_listing := by
  unfold run_scan
  exact scan_dir_follow_irrelevant opts sink b root_listing [] 0 ⟨0, []⟩

theorem bump_max_depth (opts : Opts) : (bump opts).max_depth = opts.max_depth + 1 := rfl

theorem bump_follow (opts : Opts) : (bump opts).follow_symlinks = opts.follow_symlinks := rfl

theorem bump_exclude (opts : Opts) : (bump opts).exclude_dirs = opts.exclude_dirs := rfl

/-- Raising the depth bound by one only extends the ideal stream: the
smaller scan's stream is a sublist of the larger one's. -/
theorem emits_maxdepth_mono (opts : Opts) (l : List EItem) (rel : List Str) (depth : Nat) :
    (emits opts l rel depth).Sublist (emits (bump opts) l rel depth) := by
  induction l, rel, depth using emits.induct opts with
  | case1 rel depth => simp [emits_nil]
  | case2 rest rel depth ih =>
    rw [emits_err, emits_err]
    exact ih
  | case3 name listing md rest rel depth ih =>
    rw [emits_noftype, emits_noftype]
    exact ih
  | case4 name listing md rest rel depth ft hdir hexc ih =>
    rw [emits_dir_excluded opts _ _ _ _ _ _ _ hdir hexc,
      emits_dir_excluded (bump opts) _ _ _ _ _ _ _ hdir hexc]
    exact ih
  | case5 name listing md rest rel depth ft hdir hexc hsym ih =>
    rw [Bool.not_eq_true] at hexc
    rw [emits_dir_symlink opts _ _ _ _ _ _ _ hdir hexc hsym,
      emits_dir_symlink (bump opts) _ _ _ _ _ _ _ hdir hexc hsym]
    exact ih
  | case6 name listing md rest rel depth ft hdir hexc hsym ih_items ih_rest =>
    rw [Bool.not_eq_true] at hexc
    rw [Bool.not_eq_true] at hsym
    rw [emits_dir_descend opts _ _ _ _ _ _ _ hdir hexc hsym,
      emits_dir_descend (bump opts) _ _ _ _ _ _ _ hdir hexc hsym]
    unfold emitsDir
    simp only [bump_max_depth]
    by_cases hd : depth + 1 > opts.max_depth
    · simp only [hd, if_true]
      exact List.Sublist.append (List.nil_sublist _) ih_rest
    · have hd' : ¬ (depth + 1 > opts.max_depth + 1) := by omega
      simp only [hd, hd', if_false]
      cases listing with
      | none => exact List.Sublist.append (List.Sublist.refl _) ih_rest
      | some items => exact List.Sublist.append ih_items ih_rest
  | case7 name listing rest rel depth ft hdir hfile ih =>
    rw [Bool.not_eq_true] at hdir
    rw [emits_file_nometa opts _ _ _ _ _ _ hdir hfile,
      emits_file_nometa (bump opts) _ _ _ _ _ _ hdir hfile]
    exact ih
  | case8 name listing rest rel depth ft hdir hfile m ih =>
    rw [Bool.not_eq_true] at hdir
    rw [emits_file opts _ _ _ _ _ _ _ hdir hfile,
      emits_file (bump opts) _ _ _ _ _ _ _ hdir hfile]
    exact ih.cons₂ _
  | case9 name listing md rest rel depth ft hdir hfile ih =>
    rw [Bool.not_eq_true] at hdir
    rw [Bool.not_eq_true] at hfile
    rw [emits_other opts _ _ _ _ _ _ _ hdir hfile,
      emits_other (bump opts) _ _ _ _ _ _ _ hdir hfile]
    exact ih

/-- Behaviour of `main`'s invocation with the always-succeeding sink: `Ok`, and the
output is exactly the ideal stream of the root. -/
theorem run_scan_okSink (opts : Opts) (listing : Option (List EItem)) :
    run_scan opts okSink listing
      = (true, ⟨(emitsDir opts listing [] 0).length, emitsDir opts listing [] 0⟩) := by
  unfold run_scan
  simpa using scan_dir_okSink opts listing [] 0 ⟨0, []⟩

/-- At the root the depth guard never fires. -/
theorem emitsDir_root (opts : Opts) (items : List EItem) :
    emitsDir opts (some items) [] 0 = emits opts items [] 0 := by
  unfold emitsDir
  simp

theorem strip_glob_eq (s : Str) :
    (if str_ends_with s ['/', '*', '*'] then drop_right s 3 else s)
      = spec_strip_glob_suffix s := by
  unfold spec_strip_glob_suffix
  have hiff : str_ends_with s ['/', '*', '*'] = List.isSuffixOf ['/', '*', '*'] s := rfl
  rw [hiff]
  by_cases h : List.isSuffixOf ['/', '*', '*'] s
  · simp only [h, if_true]
    have hsuf : ['/', '*', '*'] <:+ s := by
      have h2 := h
      unfold List.isSuffixOf at h2
      rw [ List.isPrefixOf_iff_prefix] at h2
      exact (List.reverse_prefix).mp h2
    obtain ⟨t, ht⟩ := hsuf
    subst ht
    have h3 : t ++ ['/', '*', '*'] = ((t ++ ['/']) ++ ['*']) ++ ['*'] := by simp
    rw [h3, List.dropLast_concat, List.dropLast_concat, List.dropLast_concat]
    unfold drop_right
    simp [List.reverse_append]
  · simp [h]

theorem strip_slashes_eq (s : Str) :
    (s.reverse.dropWhile (fun c => c = '/')).reverse
      = spec_strip_trailing_slashes s := by
  induction s using List.reverseRecOn with
  | nil =>
    rw [spec_strip_trailing_slashes.eq_def]
    simp
  | append_singleton l x ih =>
    rw [spec_strip_trailing_slashes.eq_def]
    by_cases hx : x = '/'
    · subst hx
      rw [List.getLast?_concat]
      simp only [if_true, List.dropLast_concat, reduceIte]
      rw [← ih]
      simp [List.dropWhile_cons]
    · have hg : (l ++ [x]).getLast? = some x := List.getLast?_concat _
      rw [hg]
      have hne : ¬ (some x = some '/') := by simpa using hx
      simp only [hne, dite_false]
      simp [List.dropWhile_cons, hx]

/-- C8: the code's normalization performs exactly the spec's four steps in
order, and the result is the token the matcher compares against. -/
theorem normalize_eq_spec_steps (pat : Str) :
    normalize_pattern_token pat = normalize_spec pat := by
  simp only [normalize_pattern_token, normalize_spec, spec_trim_ws, spec_slashes,
    rustTrim]
  rw [strip_glob_eq, strip_slashes_eq]

/-! ## The claims -/

/-- C1, counterexample.  A `writeln!` failure on the first record (the
file `d/a`) makes the recursive `scan_dir` call on `d` return `Err`, but
the root invocation swallows it (`let _ =`), goes on to emit the sibling
file `b`, and returns `Ok` — so the scan does not halt and `main` exits
with code 0, contradicting the claim that a sink write failure is
propagated upward as a scan failure that halts the scan. -/
theorem C1_counterexample :
    (fun k => (k != 0 : Bool)) 0 = false
    ∧ (scan_dir ⟨64, false, []⟩ (fun k => k != 0)
        (some [EItem.node ['a'] (some ftFile) none (some ⟨some 1, 1⟩)])
        [['d']] 1 ⟨0, []⟩).1 = false
    ∧ run_scan ⟨64, false, []⟩ (fun k => k != 0)
        (some [EItem.node ['d'] (some ftDir)
                 (some [EItem.node ['a'] (some ftFile) none (some ⟨some 1, 1⟩)]) none,
               EItem.node ['b'] (some ftFile) none (some ⟨some 2, 2⟩)])
        = (true, ⟨2, [⟨[['b']], 2, 2⟩]⟩) := by
  refine ⟨rfl, ?_, ?_⟩
  · simp [scan_dir, scan_entries, writeRecord, mtimeOf, toI64, ftFile, FType.isDir, FType.isFile, FType.isSymlink]
  · simp [run_scan, scan_dir, scan_entries, writeRecord, relPosix,
      should_exclude_dir, mtimeOf, toI64, ftDir, ftFile, FType.isDir, FType.isFile, FType.isSymlink]

/-- C1, amended.  A failed write makes the `scan_dir` invocation that
performed it return `Err` immediately, without processing that
directory's remaining entries; and a sink write failure is the only
condition under which `scan_dir` returns `Err`.  Because a parent
invocation discards a recursive call's result, the whole scan halts (and
`main` exits with code 1) only when the failing write occurs in the root
directory's own invocation. -/
theorem C1_amended :
    (∀ (opts : Opts) (sink : Sink) (name : Str) (ft : FType)
       (listing : Option (List EItem)) (m : MetaData) (rest : List EItem)
       (rel : List Str) (depth : Nat) (s : SinkState),
       ft.isDir = false → ft.isFile = true → sink s.writes = false →
       scan_entries opts sink (.node name (some ft) listing (some m) :: rest) rel depth s
         = (false, ⟨s.writes + 1, s.out⟩))
    ∧ (∀ (opts : Opts) (sink : Sink) (listing : Option (List EItem))
         (rel : List Str) (depth : Nat) (s : SinkState),
       (scan_dir opts sink listing rel depth s).1 = false →
       ∃ k, s.writes ≤ k ∧ k < (scan_dir opts sink listing rel depth s).2.writes
         ∧ sink k = false) := by
  constructor
  · intro opts sink name ft listing m rest rel depth s hdir hfile hw
    rw [scan_entries_file _ _ _ _ _ _ _ _ _ _ hdir hfile]
    simp [writeRecord, hw]
  · intro opts sink listing rel depth s hfail
    unfold scan_dir at hfail ⊢
    by_cases hd : depth > opts.max_depth
    · simp [hd] at hfail
    · simp only [hd, if_false] at hfail ⊢
      cases listing with
      | none => simp at hfail
      | some items => exact scan_entries_false_write_failed opts sink items rel depth s hfail

/-- Witness for `C1_amended` at a concrete input: a sink that always
fails, one regular file at the root. -/
theorem C1_amended_witness :
    scan_entries ⟨64, false, []⟩ (fun _ => false)
        [EItem.node ['a'] (some ftFile) none (some ⟨some 1, 1⟩)] [] 0 ⟨0, []⟩
      = (false, ⟨1, []⟩)
    ∧ ∃ k, 0 ≤ k
        ∧ k < (scan_dir ⟨64, false, []⟩ (fun _ => false)
                (some [EItem.node ['a'] (some ftFile) none (some ⟨some 1, 1⟩)])
                [] 0 ⟨0, []⟩).2.writes
        ∧ (fun _ => false) k = false := by
  constructor
  · exact C1_amended.1 ⟨64, false, []⟩ (fun _ => false) ['a'] ftFile none
      ⟨some 1, 1⟩ [] [] 0 ⟨0, []⟩ rfl rfl rfl
  · exact C1_amended.2 ⟨64, false, []⟩ (fun _ => false)
      (some [EItem.node ['a'] (some ftFile) none (some ⟨some 1, 1⟩)]) [] 0 ⟨0, []⟩
      (by simp [scan_dir, scan_entries, writeRecord, ftFile, FType.isDir, FType.isFile, FType.isSymlink])

/-- C2: a failure returned by the recursive `scan_dir` call on a
subdirectory is discarded: the loop state after the directory entry is
just the recursive call's sink state, the remaining sibling entries are
still iterated, and the caller's own result does not mention the
recursive call's `Ok`/`Err` at all. -/
theorem C2_recursive_failure_swallowed (opts : Opts) (sink : Sink) (name : Str)
    (ft : FType) (listing : Option (List EItem)) (md : Option MetaData)
    (rest : List EItem) (rel : List Str) (depth : Nat) (s : SinkState)
    (hdir : ft.isDir = true)
    (hexc : should_exclude_dir name (relPosix (rel ++ [name])) opts.exclude_dirs = false)
    (hsym : (!opts.follow_symlinks && ft.isSymlink) = false) :
    scan_entries opts sink (.node name (some ft) listing md :: rest) rel depth s
      = scan_entries opts sink rest rel depth
          (scan_dir opts sink listing (rel ++ [name]) (depth + 1) s).2 :=
  scan_entries_dir_descend opts sink name ft listing md rest rel depth s hdir hexc hsym

/-- Witness for `C2_recursive_failure_swallowed`: a subdirectory whose
scan fails (its only file's write fails), followed by a sibling file that
is still processed. -/
theorem C2_witness :
    scan_entries ⟨64, false, []⟩ (fun k => k != 0)
        [EItem.node ['d'] (some ftDir)
           (some [EItem.node ['a'] (some ftFile) none (some ⟨some 1, 1⟩)]) none,
         EItem.node ['b'] (some ftFile) none (some ⟨some 2, 2⟩)] [] 0 ⟨0, []⟩
      = scan_entries ⟨64, false, []⟩ (fun k => k != 0)
          [EItem.node ['b'] (some ftFile) none (some ⟨some 2, 2⟩)] [] 0
          (scan_dir ⟨64, false, []⟩ (fun k => k != 0)
            (some [EItem.node ['a'] (some ftFile) none (some ⟨some 1, 1⟩)])
            [['d']] 1 ⟨0, []⟩).2 :=
  C2_recursive_failure_swallowed ⟨64, false, []⟩ (fun k => k != 0) ['d'] ftDir
    (some [EItem.node ['a'] (some ftFile) none (some ⟨some 1, 1⟩)]) none
    [EItem.node ['b'] (some ftFile) none (some ⟨some 2, 2⟩)] [] 0 ⟨0, []⟩
    rfl (by decide) rfl

/-- C9: `scan_dir` enforces no precondition on the directory: a failing
listing (`read_dir` error — a missing root, a non-directory root, a
permission error) is treated exactly like an empty listing, and both
return success with the sink untouched. -/
theorem C9_listing_failure_is_empty (opts : Opts) (sink : Sink) (rel : List Str)
    (depth : Nat) (s : SinkState) :
    scan_dir opts sink none rel depth s = (true, s)
      ∧ scan_dir opts sink (some []) rel depth s = (true, s) := by
  constructor <;>
    · unfold scan_dir
      by_cases hd : depth > opts.max_depth <;> simp [hd, scan_entries_nil]

/-- C3, code bug.  The claim's (and spec's) second half — with
`follow_symlinks = true` the walker descends into symlinked directories
and emits the files behind them — is false of the program: entries are
classified with `entry.file_type()` (line 102), which does not traverse
symlinks and whose `is_dir`/`is_file`/`is_symlink` answers are mutually
exclusive, so a symlink-to-directory answers `is_dir() == false` and is
ignored entirely.  The three conjuncts evaluate the code: (1) `is_dir`
and `is_symlink` are never both true, so the symlink test at line 118 is
dead code; (2) the `follow_symlinks` flag has no effect on any scan's
result; (3) at the concrete failing input — `follow_symlinks = true`,
root containing a symlink `s` to a directory holding the regular file
`f` — the scan emits nothing, although the claim requires `s/f` to be
emitted.  (The claim's first half — with the flag off, no file behind a
symlinked directory is emitted — does hold, trivially, for the same
reason.)  The `--follow-symlinks` option and the line-118 guard show the
spec's descent behaviour is the intent, so the code, not the claim, is
wrong. -/
theorem C3_code_bug :
    (∀ ft : FType, (ft.isDir && ft.isSymlink) = false)
    ∧ (∀ (opts : Opts) (sink : Sink) (b : Bool)
         (root_listing : Option (List EItem)),
        run_scan ⟨opts.max_depth, b, opts.exclude_dirs⟩ sink root_listing
          = run_scan opts sink root_listing)
    ∧ run_scan ⟨64, true, []⟩ okSink
        (some [EItem.node ['s'] (some FType.symlink)
                 (some [EItem.node ['f'] (some FType.file) none (some ⟨some 5, 9⟩)])
                 none])
        = (true, ⟨0, []⟩) := by
  refine ⟨?_, ?_, ?_⟩
  · intro ft
    cases ft <;> rfl
  · intro opts sink b root_listing
    exact run_scan_follow_irrelevant opts sink b root_listing
  · simp [run_scan, scan_dir, scan_entries, FType.isDir, FType.isFile]

/-- C4: depth bound.  (a) Whatever the sink does, every emitted record's
path has at most `max_depth + 1` components — a file directly in the root
has one component (depth 0), so no emitted file is strictly deeper than
`max_depth`.  (b) `scan_dir` invoked with `depth` exceeding `max_depth`
returns success immediately, leaving the sink untouched (the directory is
not listed). -/
theorem C4_depth_bound :
    (∀ (opts : Opts) (sink : Sink) (items : List EItem) (r : Record),
       r ∈ (run_scan opts sink (some items)).2.out →
       r.path.length ≤ opts.max_depth + 1)
    ∧ (∀ (opts : Opts) (sink : Sink) (listing : Option (List EItem))
         (rel : List Str) (depth : Nat) (s : SinkState),
       depth > opts.max_depth →
       scan_dir opts sink listing rel depth s = (true, s)) := by
  constructor
  · intro opts sink items r hr
    unfold run_scan at hr
    obtain ⟨t, ht, hsub⟩ := scan_dir_out_sublist opts sink (some items) [] 0 ⟨0, []⟩
    rw [ht] at hr
    simp only [List.nil_append] at hr
    have hr2 : r ∈ emitsDir opts (some items) [] 0 := hsub.subset hr
    rw [emitsDir_root] at hr2
    obtain ⟨p, md, hEq, hchain⟩ := emits_sound opts items [] 0 r hr2
    have hb := hchain.depth_bound
    rw [Nat.max_zero] at hb
    have hlen : r.path.length = p.length := by rw [hEq]; simp
    omega
  · intro opts sink listing rel depth s hd
    unfold scan_dir
    simp [hd]

/-- Witness for `C4_depth_bound`: a one-file scan at `max_depth = 64`,
and a `scan_dir` call at depth 1 with `max_depth = 0`. -/
theorem C4_witness :
    (⟨[['a']], 1, 1⟩ : Record).path.length ≤ 64 + 1
    ∧ scan_dir ⟨0, false, []⟩ okSink
        (some [EItem.node ['a'] (some ftFile) none (some ⟨some 1, 1⟩)])
        [] 1 ⟨0, []⟩ = (true, ⟨0, []⟩) := by
  constructor
  · exact C4_depth_bound.1 ⟨64, false, []⟩ okSink
      [EItem.node ['a'] (some ftFile) none (some ⟨some 1, 1⟩)] ⟨[['a']], 1, 1⟩
      (by simp [run_scan, scan_dir, scan_entries, writeRecord, okSink, mtimeOf,
        toI64, ftFile, FType.isDir, FType.isFile, FType.isSymlink])
  · exact C4_depth_bound.2 ⟨0, false, []⟩ okSink _ [] 1 ⟨0, []⟩ (by decide)

/-- C5, counterexample.  A directory literally named `node_*` whose bare
name equals the normalized token of the exclusion pattern `node_*` is NOT
pruned, because the matcher refuses tokens containing `*`: the file
`node_*/f` beneath it is emitted.  This contradicts the claim that any
directory whose bare name equals some normalized exclusion token has no
file beneath it emitted. -/
theorem C5_counterexample :
    normalize_pattern_token ['n', 'o', 'd', 'e', '_', '*'] = ['n', 'o', 'd', 'e', '_', '*']
    ∧ run_scan ⟨64, false, [['n', 'o', 'd', 'e', '_', '*']]⟩ okSink
        (some [EItem.node ['n', 'o', 'd', 'e', '_', '*'] (some ftDir)
                 (some [EItem.node ['f'] (some ftFile) none (some ⟨some 3, 4⟩)]) none])
        = (true, ⟨1, [⟨[['n', 'o', 'd', 'e', '_', '*'], ['f']], 3, 4⟩]⟩) := by
  constructor
  · decide
  · have hexc : should_exclude_dir ['n', 'o', 'd', 'e', '_', '*']
        (relPosix [['n', 'o', 'd', 'e', '_', '*']])
        [['n', 'o', 'd', 'e', '_', '*']] = false := by decide
    simp [run_scan, scan_dir, scan_entries, writeRecord, okSink, mtimeOf, toI64,
      ftDir, ftFile, FType.isDir, FType.isFile, FType.isSymlink, hexc]

/-- C5, amended: for every directory whose bare name or root-relative
path equals some normalized exclusion token that is non-empty and free of
the wildcard characters `*`, `?`, `[` (or that lies beneath such a
directory), no file under that directory is ever emitted, whatever the
sink and the depth bound.  Stated in contrapositive form: every strict
ancestor directory (components `q ++ [n]`) of an emitted record's path
differs, in bare name and in root-relative path, from every such token. -/
theorem C5_amended (opts : Opts) (sink : Sink) (items : List EItem) (r : Record)
    (hr : r ∈ (run_scan opts sink (some items)).2.out)
    (q : List Str) (n : Str) (r2 : List Str)
    (hsplit : r.path = q ++ n :: r2) (hr2 : r2 ≠ [])
    (pat : Str) (hpat : pat ∈ opts.exclude_dirs)
    (hne : normalize_pattern_token pat ≠ [])
    (hwild : tokenHasWildcard (normalize_pattern_token pat) = false) :
    n ≠ normalize_pattern_token pat
      ∧ relPosix (q ++ [n]) ≠ normalize_pattern_token pat := by
  unfold run_scan at hr
  obtain ⟨t, ht, hsub⟩ := scan_dir_out_sublist opts sink (some items) [] 0 ⟨0, []⟩
  rw [ht] at hr
  simp only [List.nil_append] at hr
  have hr2m : r ∈ emitsDir opts (some items) [] 0 := hsub.subset hr
  rw [emitsDir_root] at hr2m
  obtain ⟨p, md, hEq, hchain⟩ := emits_sound opts items [] 0 r hr2m
  have hp : p = q ++ n :: r2 := by
    have h0 : r.path = p := by rw [hEq]; simp
    rw [hsplit] at h0
    exact h0.symm
  have hnot := hchain.not_excluded q n r2 hp hr2
  simp only [List.nil_append] at hnot
  unfold should_exclude_dir at hnot
  rw [List.any_eq_false] at hnot
  have hbody := hnot pat hpat
  have hie : (normalize_pattern_token pat).isEmpty = false := by
    cases hh : normalize_pattern_token pat with
    | nil => exact absurd hh hne
    | cons a l => rfl
  simp only [hie, hwild, Bool.not_false, if_true, if_false, Bool.false_eq_true,
    Bool.or_eq_true, decide_eq_true_eq, not_or] at hbody
  exact ⟨hbody.1.1, hbody.1.2⟩

/-- Witness for `C5_amended`: a scan with pattern `x`, whose output
contains `b/f`; the ancestor directory `b` differs from the token `x` in
name and in relative path. -/
theorem C5_amended_witness :
    (['b'] : Str) ≠ normalize_pattern_token ['x']
      ∧ relPosix ([] ++ [['b']]) ≠ normalize_pattern_token ['x'] :=
  C5_amended ⟨64, false, [['x']]⟩ okSink
    [EItem.node ['b'] (some ftDir)
       (some [EItem.node ['f'] (some ftFile) none (some ⟨some 1, 1⟩)]) none]
    ⟨[['b'], ['f']], 1, 1⟩
    (by
      have hexc : should_exclude_dir ['b'] (relPosix [['b']]) [['x']] = false := by decide
      simp [run_scan, scan_dir, scan_entries, writeRecord, okSink, mtimeOf, toI64,
        ftDir, ftFile, FType.isDir, FType.isFile, FType.isSymlink, hexc])
    [] ['b'] [['f']] rfl (by decide) ['x'] (by decide) (by decide) (by decide)

/-- C6, counterexample.  The claim characterizes `should_exclude_dir` as
true whenever some non-empty normalized token literally equals the bare
directory name; but for the pattern `node_*` and a directory literally
named `node_*` the matcher returns false (the token contains `*`), so the
claimed equivalence fails. -/
theorem C6_counterexample :
    should_exclude_dir ['n', 'o', 'd', 'e', '_', '*'] ['n', 'o', 'd', 'e', '_', '*']
        [['n', 'o', 'd', 'e', '_', '*']] = false
    ∧ normalize_pattern_token ['n', 'o', 'd', 'e', '_', '*'] = ['n', 'o', 'd', 'e', '_', '*']
    ∧ (['n', 'o', 'd', 'e', '_', '*'] : Str) ≠ [] := by
  decide

/-- C6, amended: `should_exclude_dir dir_name rel_posix patterns` returns
true exactly when some pattern's normalized token is non-empty, contains
none of `*`, `?`, `[`, and — compared literally — equals the bare
directory name, or equals the root-relative path, or followed by `/` is a
prefix of the root-relative path.  Tokens that are empty after
normalization (and tokens containing a wildcard character) never match. -/
theorem C6_amended (dir_name rel_posix : Str) (patterns : List Str) :
    should_exclude_dir dir_name rel_posix patterns = true
      ↔ ∃ pat, pat ∈ patterns
          ∧ normalize_pattern_token pat ≠ []
          ∧ tokenHasWildcard (normalize_pattern_token pat) = false
          ∧ (dir_name = normalize_pattern_token pat
             ∨ rel_posix = normalize_pattern_token pat
             ∨ List.isPrefixOf (tokenSlash (normalize_pattern_token pat)) rel_posix = true) := by
  unfold should_exclude_dir
  rw [List.any_eq_true]
  constructor
  · rintro ⟨pat, hmem, hbody⟩
    refine ⟨pat, hmem, ?_⟩
    by_cases hie : (normalize_pattern_token pat).isEmpty
    · simp [hie] at hbody
    · have hne : normalize_pattern_token pat ≠ [] := by
        intro hh
        rw [hh] at hie
        exact hie rfl
      by_cases hw : tokenHasWildcard (normalize_pattern_token pat)
      · rw [Bool.not_eq_true] at hie
        simp [hie, hw] at hbody
      · rw [Bool.not_eq_true] at hie
        rw [Bool.not_eq_true] at hw
        refine ⟨hne, hw, ?_⟩
        simp only [hie, hw, Bool.not_false, if_true, if_false, Bool.false_eq_true,
          Bool.or_eq_true, decide_eq_true_eq, or_assoc] at hbody
        exact hbody
  · rintro ⟨pat, hmem, hne, hw, hor⟩
    refine ⟨pat, hmem, ?_⟩
    have hie : (normalize_pattern_token pat).isEmpty = false := by
      cases hh : normalize_pattern_token pat with
      | nil => exact absurd hh hne
      | cons a l => rfl
    simp only [hie, hw, Bool.not_false, if_true, if_false, Bool.false_eq_true,
      Bool.or_eq_true, decide_eq_true_eq, or_assoc]
    exact hor

/-- C7: a pattern whose normalized token contains `*`, `?` or `[` never
matches: if every pattern in the list has such a token, the matcher
reports no exclusion for any directory name and relative path — in
particular `node_*` does not exclude a directory named `node_modules`. -/
theorem C7_wildcard_tokens_never_match (dir_name rel_posix : Str)
    (patterns : List Str)
    (hw : ∀ pat ∈ patterns, tokenHasWildcard (normalize_pattern_token pat) = true) :
    should_exclude_dir dir_name rel_posix patterns = false := by
  unfold should_exclude_dir
  rw [List.any_eq_false]
  intro pat hmem
  have h := hw pat hmem
  intro hbody
  by_cases hie : (normalize_pattern_token pat).isEmpty
  · simp [hie] at hbody
  · rw [Bool.not_eq_true] at hie
    simp [hie, h] at hbody

/-- Witness for `C7_wildcard_tokens_never_match`: the pattern `node_*`
does not exclude a directory named `node_modules`. -/
theorem C7_witness :
    (∀ pat ∈ [['n', 'o', 'd', 'e', '_', '*']],
       tokenHasWildcard (normalize_pattern_token pat) = true)
    ∧ should_exclude_dir ['n', 'o', 'd', 'e', '_', 'm', 'o', 'd', 'u', 'l', 'e', 's']
        ['n', 'o', 'd', 'e', '_', 'm', 'o', 'd', 'u', 'l', 'e', 's']
        [['n', 'o', 'd', 'e', '_', '*']] = false :=
  ⟨by decide,
   C7_wildcard_tokens_never_match _ _ [['n', 'o', 'd', 'e', '_', '*']] (by decide)⟩

/-- C10: monotonicity in the depth bound.  Over the same tree, with every
sink write succeeding, every record emitted with `max_depth = d` is also
emitted by the otherwise-identical scan with `max_depth = d + 1` (the
smaller stream is in fact an in-order sublist of the larger, so raising
the bound only adds records). -/
theorem C10_maxdepth_monotone (opts opts2 : Opts) (items : List EItem) (r : Record)
    (hmd : opts2.max_depth = opts.max_depth + 1)
    (hfs : opts2.follow_symlinks = opts.follow_symlinks)
    (hex : opts2.exclude_dirs = opts.exclude_dirs)
    (hr : r ∈ (run_scan opts okSink (some items)).2.out) :
    r ∈ (run_scan opts2 okSink (some items)).2.out := by
  have hopts : opts2 = bump opts := by
    cases opts2
    simp only [bump] at hmd hfs hex ⊢
    simp [hmd, hfs, hex]
  subst hopts
  rw [run_scan_okSink] at hr ⊢
  simp only at hr ⊢
  rw [emitsDir_root] at hr ⊢
  exact (emits_maxdepth_mono opts items [] 0).subset hr

/-- Witness for `C10_maxdepth_monotone`: a root file emitted at
`max_depth = 0` is also emitted at `max_depth = 1`. -/
theorem C10_witness :
    (⟨[['a']], 1, 1⟩ : Record)
      ∈ (run_scan ⟨1, false, []⟩ okSink
          (some [EItem.node ['a'] (some ftFile) none (some ⟨some 1, 1⟩)])).2.out :=
  C10_maxdepth_monotone ⟨0, false, []⟩ ⟨1, false, []⟩
    [EItem.node ['a'] (some ftFile) none (some ⟨some 1, 1⟩)] ⟨[['a']], 1, 1⟩
    rfl rfl rfl
    (by simp [run_scan, scan_dir, scan_entries, writeRecord, okSink, mtimeOf,
      toI64, ftFile, FType.isDir, FType.isFile, FType.isSymlink])

end RustScanner
